import Mathlib

/-!
Verification of the scaffold-mutation scripts of Central-Sequence-Service.

The Python sources operate on documents read with readlines (a list of
lines, each keeping its trailing newline character) and on a filesystem
of files addressed by relative paths.  We embed:

* substring containment, mirroring the Python expression pat in s;
* clean_file from clean_vapor_project.py (the PatternFilter);
* append_to_file from setup_openapiserve.py / setup_openapimiddleware.py
  (the MarkerInsert);
* the exclusions insertion loop of fix_nested_resources.py /
  fix_resource_conflicts.py (the ListBlockEditor instance);
* the move loop plus rmtree of fix_nested_resources.py (the TreeMerger);
* validate_redoc_setup from validate_redoc_setup.py (ScaffoldValidator).
-/

set_option autoImplicit false

namespace CentralSeq

/-! ### Substring containment, the Python test pat in s -/

/-- Does the second character list start with the first one? -/
def beginsWith : List Char → List Char → Bool
  | [], _ => true
  | _ :: _, [] => false
  | a :: pa, b :: sb => a == b && beginsWith pa sb

/-- Does pat occur contiguously anywhere in the character list? -/
def occursIn (pat : List Char) : List Char → Bool
  | [] => beginsWith pat []
  | b :: sb => beginsWith pat (b :: sb) || occursIn pat sb

/-- The Python expression pat in s (substring containment, case sensitive). -/
def strContains (s pat : String) : Bool :=
  occursIn pat.data s.data

/-! ### PatternFilter: clean_file in clean_vapor_project.py -/

/-- The list comprehension in clean_file: keep the lines that contain
none of the patterns. -/
def cleanLines (lines : List String) (patterns : List String) : List String :=
  lines.filter (fun line => ! patterns.any (fun pat => strContains line pat))

/-- clean_file of clean_vapor_project.py at the filesystem level: the
file argument is none when the file does not exist.  Returns the new
file state and the messages printed. -/
def clean_file (path : String) (file : Option (List String))
    (patterns : List String) : Option (List String) × List String :=
  match file with
  | none => (none, ["File not found: " ++ path])
  | some lines => (some (cleanLines lines patterns), ["Cleaned file: " ++ path])

/-! ### MarkerInsert: append_to_file in setup_openapiserve.py and
setup_openapimiddleware.py -/

/-- The for-loop with break and for-else of append_to_file: insert
content right after the first line containing marker, appending at the
end when no line does. -/
def insertAfterFirst (lines : List String) (marker : String)
    (content : String) : List String :=
  match lines with
  | [] => [content]
  | l :: ls =>
    if strContains l marker then l :: content :: ls
    else l :: insertAfterFirst ls marker content

/-- The existing-file branch of append_to_file, acting on the readlines
line list.  Python tests if marker: — an empty or absent marker takes
the plain-append branch. -/
def appendLines (lines : List String) (content : String)
    (marker : Option String) : List String :=
  match marker with
  | some m =>
    if m.isEmpty then lines ++ [content ++ "\n"]
    else insertAfterFirst lines m (content ++ "\n")
  | none => lines ++ [content ++ "\n"]

/-- Python readlines on a character list: split after every newline
character, keeping the newline; a last fragment without a newline is
kept as well.  The accumulator holds the current fragment reversed. -/
def splitKeepNl : List Char → List Char → List (List Char)
  | [], acc => if acc.isEmpty then [] else [acc.reverse]
  | c :: cs, acc =>
    if c == '\n' then (acc.reverse ++ ['\n']) :: splitKeepNl cs []
    else splitKeepNl cs (c :: acc)

/-- Python readlines: a file text as its list of lines, newlines kept. -/
def readlines (s : String) : List String :=
  (splitKeepNl s.data []).map String.mk

/-- Python writelines: concatenation of the lines, no separator added. -/
def writelines : List String → String
  | [] => ""
  | l :: ls => l ++ writelines ls

/-- append_to_file at the file level: a missing file (none) is created
holding exactly content; an existing file is read with readlines,
edited with appendLines and written back with writelines. -/
def append_to_file (file : Option String) (content : String)
    (marker : Option String) : String :=
  match file with
  | none => content
  | some text => writelines (appendLines (readlines text) content marker)

/-! ### ListBlockEditor: the exclusions insertion loop of
fix_nested_resources.py (Step 4; identical in fix_resource_conflicts.py) -/

/-- The EXCLUDE_FILES constant of fix_nested_resources.py. -/
def excludeFiles : List String :=
  [".build/checkouts/leaf-kit/Sources/LeafKit/Docs.docc",
   ".build/checkouts/swift-algorithms/Sources/Algorithms/Documentation.docc"]

/-- The block opener the loop searches for. -/
def excludeOpener : String := "exclude: ["

/-- The line the loop appends for one entry: the f-string
with eight leading spaces, quotes and a trailing comma. -/
def exclusionEntryLine (e : String) : String :=
  "        \"" ++ e ++ "\",\n"

/-- The for-loop over package_content: after the first line containing
the opener (the exclusions_updated flag blocks later ones), every
EXCLUDE_FILES entry line is appended unconditionally. -/
def addExclusionsLoop : List String → Bool → List String
  | [], _ => []
  | l :: ls, updated =>
    if strContains l excludeOpener && !updated then
      l :: (excludeFiles.map exclusionEntryLine ++ addExclusionsLoop ls true)
    else
      l :: addExclusionsLoop ls updated

/-- One run of Step 4 of fix_nested_resources.py on the document. -/
def addExclusions (lines : List String) : List String :=
  addExclusionsLoop lines false

/-- Step 4 including the message it prints: the same success message is
printed whether or not the opener was found. -/
def addExclusionsStep (pkg : String) (lines : List String) :
    List String × String :=
  (addExclusions lines, "Added exclusions to " ++ pkg ++ ".")

/-! ### TreeMerger: the move loop and rmtree of fix_nested_resources.py -/

/-- A relative path below the walked root. -/
abbrev Path := List String

/-- Look a path up in a directory listing. -/
def findFile : List (Path × String) → Path → Option String
  | [], _ => none
  | (q, c) :: fs, p => if q = p then some c else findFile fs p

/-- shutil.move of one file onto a destination path: any file already
at that path is replaced silently. -/
def moveFile (p : Path) (c : String) (dst : List (Path × String)) :
    List (Path × String) :=
  (p, c) :: dst.filter (fun e => decide (e.1 ≠ p))

/-- The os.walk loop: every file under the source is moved to the
equivalent relative path under the destination. -/
def moveAll : List (Path × String) → List (Path × String) →
    List (Path × String)
  | [], dst => dst
  | (p, c) :: rest, dst => moveAll rest (moveFile p c dst)

/-- The source directory (none when it does not exist) and the
destination directory of one merge. -/
structure MergeState where
  src : Option (List (Path × String))
  dst : List (Path × String)
deriving Repr, DecidableEq

/-- The Step 2 branch of fix_nested_resources.py: when the source
directory exists, walk it moving every file, then rmtree the source;
otherwise print that nothing was found.  Returns the new state and the
message printed. -/
def treeMerge (srcName dstName : String) (s : MergeState) :
    MergeState × String :=
  match s.src with
  | none => (s, "No nested resources found at " ++ srcName ++ ".")
  | some files =>
    ({ src := none, dst := moveAll files s.dst },
     "Moved resources from " ++ srcName ++ " to " ++ dstName ++ ".")

/-! ### ScaffoldValidator: validate_redoc_setup.py -/

/-- The file and directory paths the validator checks, relative to the
project root. -/
def openapiDirPath : String := "Resources/OpenAPI"

def viewsDirPath : String := "Resources/Views"

def redocAssetsDirPath : String := "Public/redoc"

def openapiFilePath : String := "Resources/OpenAPI/openapi.yml"

def redocLeafPath : String := "Resources/Views/redoc.leaf"

def redocCssPath : String := "Public/redoc/redoc.standalone.css"

def redocJsPath : String := "Public/redoc/redoc.standalone.js"

def routesPath : String := "Sources/App/routes.swift"

def configurePath : String := "Sources/App/configure.swift"

/-- The three substrings the validator looks for inside files. -/
def routeOpenapiNeedle : String := "app.get(\"openapi.yml\")"

def routeDocsNeedle : String := "app.get(\"docs\")"

def leafConfigNeedle : String := "app.views.use(.leaf)"

/-- The filesystem facts validate_redoc_setup reads: whether each
checked directory and file exists, and the text of routes.swift and
configure.swift when they exist. -/
structure RedocState where
  openapiDir : Bool
  viewsDir : Bool
  redocAssetsDir : Bool
  openapiFile : Bool
  redocLeafFile : Bool
  redocCssFile : Bool
  redocJsFile : Bool
  routesFile : Option String
  configureFile : Option String
deriving Repr, DecidableEq

/-- validate_redoc_setup from validate_redoc_setup.py.  The source only
reads (os.path.isdir, os.path.isfile, open for reading), so the check
is a pure function of the state; it returns the results list in the
order the script appends to it. -/
def validate_redoc_setup (s : RedocState) : List String :=
  (if !s.openapiDir then ["Missing directory: " ++ openapiDirPath] else []) ++
  (if !s.viewsDir then ["Missing directory: " ++ viewsDirPath] else []) ++
  (if !s.redocAssetsDir then ["Missing directory: " ++ redocAssetsDirPath] else []) ++
  (if !s.openapiFile then ["Missing file: " ++ openapiFilePath] else []) ++
  (if !s.redocLeafFile then ["Missing file: " ++ redocLeafPath] else []) ++
  (if !s.redocCssFile then ["Missing file: " ++ redocCssPath] else []) ++
  (if !s.redocJsFile then ["Missing file: " ++ redocJsPath] else []) ++
  (match s.routesFile with
   | none => ["Missing file: " ++ routesPath]
   | some content =>
     (if !strContains content routeOpenapiNeedle then
        ["Route for \x27/openapi.yml\x27 not found in: " ++ routesPath]
      else []) ++
     (if !strContains content routeDocsNeedle then
        ["Route for \x27/docs\x27 not found in: " ++ routesPath]
      else [])) ++
  (match s.configureFile with
   | none => ["Missing file: " ++ configurePath]
   | some content =>
     if !strContains content leafConfigNeedle then
       ["Leaf configuration not found in: " ++ configurePath]
     else [])

/-- The expected-artifact predicate, written from the specification:
every checked directory and file is present, routes.swift holds both
route markers and configure.swift holds the Leaf marker. -/
def allArtifactsPresent (s : RedocState) : Prop :=
  s.openapiDir = true ∧ s.viewsDir = true ∧ s.redocAssetsDir = true ∧
  s.openapiFile = true ∧ s.redocLeafFile = true ∧ s.redocCssFile = true ∧
  s.redocJsFile = true ∧
  (∃ c, s.routesFile = some c ∧ strContains c routeOpenapiNeedle = true ∧
    strContains c routeDocsNeedle = true) ∧
  (∃ c, s.configureFile = some c ∧ strContains c leafConfigNeedle = true)

/-! ### Helper lemmas on strings and line lists -/

theorem str_data_append (a b : String) : (a ++ b).data = a.data ++ b.data := by
  cases a; cases b; rfl

theorem str_data_empty : ("" : String).data = [] := rfl

theorem str_mk_data (s : String) : String.mk s.data = s := by
  cases s; rfl

theorem str_ext {a b : String} (h : a.data = b.data) : a = b := by
  cases a; cases b; exact congrArg String.mk h

theorem str_empty_append (s : String) : "" ++ s = s :=
  str_ext (by simp [str_data_append, str_data_empty])

theorem str_append_empty (s : String) : s ++ "" = s :=
  str_ext (by simp [str_data_append, str_data_empty])

theorem str_append_assoc (a b c : String) : a ++ b ++ c = a ++ (b ++ c) :=
  str_ext (by simp [str_data_append])

theorem str_mk_append (a b : List Char) :
    String.mk a ++ String.mk b = String.mk (a ++ b) := rfl

theorem writelines_append (xs ys : List String) :
    writelines (xs ++ ys) = writelines xs ++ writelines ys := by
  induction xs with
  | nil => simp [writelines, str_empty_append]
  | cons l ls ih => simp [writelines, ih, str_append_assoc]

theorem writelines_splitKeepNl (cs : List Char) : ∀ acc : List Char,
    writelines ((splitKeepNl cs acc).map String.mk) =
      String.mk (acc.reverse ++ cs) := by
  induction cs with
  | nil =>
    intro acc
    cases acc with
    | nil => simp [splitKeepNl, writelines]
    | cons a as => simp [splitKeepNl, writelines, str_append_empty]
  | cons c cs ih =>
    intro acc
    by_cases hc : c = '\n'
    · subst hc
      simp only [splitKeepNl, beq_self_eq_true, if_true, List.map_cons, writelines]
      rw [ih [], str_mk_append]
      simp
    · have hc' : (c == '\n') = false := by simpa using hc
      simp only [splitKeepNl, hc', Bool.false_eq_true, if_false]
      rw [ih (c :: acc)]
      simp

theorem writelines_readlines (s : String) : writelines (readlines s) = s := by
  have h := writelines_splitKeepNl s.data []
  simpa [readlines, str_mk_data] using h

theorem insertAfterFirst_no_match (lines : List String) (m c : String)
    (h : ∀ l ∈ lines, strContains l m = false) :
    insertAfterFirst lines m c = lines ++ [c] := by
  induction lines with
  | nil => rfl
  | cons l ls ih =>
    have hl : strContains l m = false := h l (List.mem_cons_self l ls)
    simp [insertAfterFirst, hl,
      ih fun x hx => h x (List.mem_cons_of_mem l hx)]

theorem insertAfterFirst_first (pre : List String) (a : String)
    (post : List String) (m c : String)
    (hpre : ∀ l ∈ pre, strContains l m = false)
    (ha : strContains a m = true) :
    insertAfterFirst (pre ++ a :: post) m c = pre ++ a :: c :: post := by
  induction pre with
  | nil => simp [insertAfterFirst, ha]
  | cons p ps ih =>
    have hp : strContains p m = false := hpre p (List.mem_cons_self p ps)
    simp [insertAfterFirst, hp,
      ih fun x hx => hpre x (List.mem_cons_of_mem p hx)]

theorem insertAfterFirst_decomp (lines : List String) (m c : String) :
    ∃ pre post, insertAfterFirst lines m c = pre ++ c :: post ∧
      pre ++ post = lines := by
  induction lines with
  | nil => exact ⟨[], [], rfl, rfl⟩
  | cons l ls ih =>
    by_cases hl : strContains l m = true
    · exact ⟨[l], ls, by simp [insertAfterFirst, hl], rfl⟩
    · rw [Bool.not_eq_true] at hl
      obtain ⟨pre, post, h1, h2⟩ := ih
      exact ⟨l :: pre, post, by simp [insertAfterFirst, hl, h1], by simp [h2]⟩

theorem insertAfterFirst_length (lines : List String) (m c : String) :
    (insertAfterFirst lines m c).length = lines.length + 1 := by
  obtain ⟨pre, post, h1, h2⟩ := insertAfterFirst_decomp lines m c
  rw [h1, ← h2]
  simp
  omega

/-- A line element that embeds a newline before its last character is
not a single whole line. -/
def hasEmbeddedNewline (s : String) : Bool :=
  s.data.dropLast.contains '\n'

/-- Written from the specification of MarkerInsert: the variant that
splits the content into lines first and inserts them as separate
elements after the first line containing the marker. -/
def insertLinesAfterFirst (lines : List String) (marker : String)
    (cs : List String) : List String :=
  match lines with
  | [] => cs
  | l :: ls =>
    if strContains l marker then l :: (cs ++ ls)
    else l :: insertLinesAfterFirst ls marker cs

theorem writelines_insert_split (lines : List String) (m c : String) :
    writelines (insertAfterFirst lines m c) =
      writelines (insertLinesAfterFirst lines m (readlines c)) := by
  induction lines with
  | nil =>
    simp [insertAfterFirst, insertLinesAfterFirst, writelines,
      writelines_readlines, str_append_empty]
  | cons l ls ih =>
    by_cases hl : strContains l m = true
    · simp [insertAfterFirst, insertLinesAfterFirst, hl, writelines,
        writelines_append, writelines_readlines, str_append_assoc]
    · rw [Bool.not_eq_true] at hl
      simp [insertAfterFirst, insertLinesAfterFirst, hl, writelines, ih]

/-- Written from the specification of PatternFilter: keep exactly the
lines that contain none of the patterns. -/
def patternFilterSpec (lines patterns : List String) : List String :=
  lines.filter (fun l => decide (∀ pat ∈ patterns, strContains l pat = false))

/-! ### Claim C4: MarkerInsert placement -/

/-- C4 (amended): for every non-empty marker, append_to_file places the
content (with its trailing newline) immediately after the first line
containing the marker, ignoring later matching lines, and appends it at
the end when no line contains the marker. -/
theorem append_to_file_marker_placement (lines : List String)
    (m content : String) (hm : m.isEmpty = false) :
    ((∀ l ∈ lines, strContains l m = false) →
      appendLines lines content (some m) = lines ++ [content ++ "\n"]) ∧
    (∀ pre a post, lines = pre ++ a :: post →
      (∀ l ∈ pre, strContains l m = false) → strContains a m = true →
      appendLines lines content (some m) =
        pre ++ a :: (content ++ "\n") :: post) := by
  constructor
  · intro h
    simp [appendLines, hm, insertAfterFirst_no_match lines m _ h]
  · intro pre a post hsplit hpre ha
    subst hsplit
    simp [appendLines, hm, insertAfterFirst_first pre a post m _ hpre ha]

/-- C4 counterexample: with the empty marker, Python's if marker: test
is false, so even though every line contains the empty string as a
substring the content is appended at the end instead of after the
first line. -/
theorem append_to_file_empty_marker_cex :
    appendLines ["a\n", "b\n"] "x" (some "") = ["a\n", "b\n", "x\n"] ∧
    strContains "a\n" "" = true ∧
    appendLines ["a\n", "b\n"] "x" (some "") ≠ ["a\n", "x\n", "b\n"] := by
  refine ⟨by decide, by decide, by decide⟩

/-- C4 witness: concrete run with a matching first line. -/
theorem append_to_file_marker_placement_witness :
    appendLines ["dependencies: [\n", "]\n"] "X" (some "dependencies: [") =
      ["dependencies: [\n", "X\n", "]\n"] := by
  have h := (append_to_file_marker_placement ["dependencies: [\n", "]\n"]
      "dependencies: [" "X" (by decide)).2 [] "dependencies: [\n" ["]\n"]
      rfl (by simp) (by decide)
  rw [h]
  decide

/-! ### Claim C5: MarkerInsert block splitting -/

/-- C5 (amended): the content block is inserted as one single element
(the output has exactly one more element than the input, however many
newlines the content holds); the flattened file text nevertheless
equals the text produced by splitting the content into lines first. -/
theorem markerInsert_single_block (lines : List String) (m content : String) :
    (insertAfterFirst lines m (content ++ "\n")).length = lines.length + 1 ∧
    writelines (insertAfterFirst lines m (content ++ "\n")) =
      writelines (insertLinesAfterFirst lines m (readlines (content ++ "\n"))) :=
  ⟨insertAfterFirst_length lines m _, writelines_insert_split lines m _⟩

/-- C5 counterexample: a two-line content block becomes one element of
the output line list, and that element embeds a newline. -/
theorem markerInsert_unsplit_cex :
    appendLines ["marker line\n"] "a\nb" (some "marker") =
      ["marker line\n", "a\nb\n"] ∧
    hasEmbeddedNewline "a\nb\n" = true := by
  refine ⟨by decide, by decide⟩

/-! ### Claim C6: PatternFilter -/

/-- C6: clean_file keeps exactly the lines containing none of the
patterns, in order and unchanged (it is a sublist equal to the
specification filter), and the empty pattern set is the identity. -/
theorem patternFilter_spec (lines patterns : List String) :
    cleanLines lines patterns = patternFilterSpec lines patterns ∧
    (cleanLines lines patterns).Sublist lines ∧
    (∀ l, l ∈ cleanLines lines patterns ↔
      l ∈ lines ∧ ∀ pat ∈ patterns, strContains l pat = false) ∧
    cleanLines lines [] = lines := by
  refine ⟨?_, ?_, ?_, ?_⟩
  · unfold cleanLines patternFilterSpec
    apply List.filter_congr
    intro x _
    rw [Bool.eq_iff_iff]
    simp [List.any_eq_true]
  · exact List.filter_sublist lines
  · intro l
    simp [cleanLines, List.mem_filter, List.any_eq_true]
  · simp [cleanLines]

/-! ### Claim C9: NotFound is recoverable -/

/-- C9: a missing target file makes clean_file report the absence and
return with the file still absent; the function is total, so the
operation continues rather than failing.  The existing-file branch is
shown for contrast. -/
theorem clean_file_missing_input (path : String) (patterns : List String) :
    clean_file path none patterns = (none, ["File not found: " ++ path]) ∧
    ∀ lines, clean_file path (some lines) patterns =
      (some (cleanLines lines patterns), ["Cleaned file: " ++ path]) :=
  ⟨rfl, fun _ => rfl⟩

/-! ### Claim C10: append_to_file on a missing file -/

/-- C10: a missing file is created holding exactly the content (the
marker is never consulted and no newline is appended), while on an
existing file the inserted element is always the content plus a
trailing newline. -/
theorem append_to_file_missing_file (content : String) :
    (∀ marker, append_to_file none content marker = content) ∧
    (∀ text marker, ∃ pre post,
      appendLines (readlines text) content marker =
        pre ++ (content ++ "\n") :: post ∧ pre ++ post = readlines text) := by
  constructor
  · intro marker; rfl
  · intro text marker
    match marker with
    | none => exact ⟨readlines text, [], by simp [appendLines], by simp⟩
    | some m =>
      by_cases hm : m.isEmpty
      · exact ⟨readlines text, [], by simp [appendLines, hm], by simp⟩
      · have h := insertAfterFirst_decomp (readlines text) m (content ++ "\n")
        simpa [appendLines, hm] using h

/-! ### Claim C1: the exclusions insertion is not idempotent -/

/-- C1 (code-bug evidence): on a document holding the opener line, a
second run of the exclusions insertion inserts every entry line again
even though it is already present — the entry count doubles and the
final documents differ — contradicting the comment in the source that
exclusions are added only if not already present. -/
theorem ensureEntries_second_run_duplicates :
    (addExclusions ["exclude: [\n", "]\n"]).count
      (exclusionEntryLine ".build/checkouts/leaf-kit/Sources/LeafKit/Docs.docc") = 1 ∧
    (addExclusions (addExclusions ["exclude: [\n", "]\n"])).count
      (exclusionEntryLine ".build/checkouts/leaf-kit/Sources/LeafKit/Docs.docc") = 2 ∧
    addExclusions (addExclusions ["exclude: [\n", "]\n"]) ≠
      addExclusions ["exclude: [\n", "]\n"] := by
  refine ⟨by decide, by decide, by decide⟩

/-! ### Claim C3: missing block opener is not reported -/

theorem addExclusionsLoop_no_opener (lines : List String)
    (h : ∀ l ∈ lines, strContains l excludeOpener = false) :
    ∀ b, addExclusionsLoop lines b = lines := by
  induction lines with
  | nil => intro b; rfl
  | cons l ls ih =>
    intro b
    have hl := h l (List.mem_cons_self l ls)
    simp [addExclusionsLoop, hl,
      ih (fun x hx => h x (List.mem_cons_of_mem l hx)) b]

/-- C3 counterexample: a document without the opener comes back
unchanged while the step still prints the unconditional success
message; no BlockNotFound condition is reported. -/
theorem ensureEntries_missing_opener_cex :
    addExclusionsStep "Package.swift" ["import PackageDescription\n"] =
      (["import PackageDescription\n"],
       "Added exclusions to Package.swift.") := by
  decide

/-- C3 (amended): when no line contains the block opener, the
exclusions step leaves the document unchanged and prints the very same
success message as when the insertion happened, so the missing block is
never reported. -/
theorem ensureEntries_missing_opener_silent (pkg : String)
    (lines : List String)
    (h : ∀ l ∈ lines, strContains l excludeOpener = false) :
    addExclusionsStep pkg lines =
      (lines, "Added exclusions to " ++ pkg ++ ".") := by
  unfold addExclusionsStep addExclusions
  rw [addExclusionsLoop_no_opener lines h false]

/-- C3 witness: concrete run with no opener present. -/
theorem ensureEntries_missing_opener_silent_witness :
    addExclusionsStep "Package.swift" ["import Foo\n"] =
      (["import Foo\n"], "Added exclusions to " ++ "Package.swift" ++ ".") :=
  ensureEntries_missing_opener_silent "Package.swift" ["import Foo\n"]
    (by decide)

/-! ### TreeMerger lemmas -/

theorem findFile_filter_ne (d : List (Path × String)) (p q : Path)
    (h : q ≠ p) :
    findFile (d.filter (fun e => decide (e.1 ≠ p))) q = findFile d q := by
  induction d with
  | nil => rfl
  | cons e es ih =>
    obtain ⟨r, c⟩ := e
    by_cases hr : r = p
    · subst hr
      have hrq : ¬ (r = q) := fun hh => h (hh ▸ rfl)
      rw [List.filter_cons, if_neg (by simp)]
      rw [ih]
      show findFile es q = if r = q then some c else findFile es q
      rw [if_neg hrq]
    · rw [List.filter_cons, if_pos (by simpa using hr)]
      show (if r = q then some c else findFile (es.filter fun e => decide (e.1 ≠ p)) q)
        = if r = q then some c else findFile es q
      rw [ih]

theorem findFile_moveFile_self (p : Path) (c : String)
    (d : List (Path × String)) :
    findFile (moveFile p c d) p = some c := by
  show (if p = p then some c else findFile (d.filter fun e => decide (e.1 ≠ p)) p) = some c
  rw [if_pos rfl]

theorem findFile_moveFile_ne (p : Path) (c : String)
    (d : List (Path × String)) (q : Path) (h : q ≠ p) :
    findFile (moveFile p c d) q = findFile d q := by
  have hpq : ¬ (p = q) := fun hh => h hh.symm
  show (if p = q then some c else findFile (d.filter fun e => decide (e.1 ≠ p)) q)
    = findFile d q
  rw [if_neg hpq, findFile_filter_ne d p q h]

theorem findFile_moveAll_not_mem (files : List (Path × String))
    (d : List (Path × String)) (p : Path)
    (h : p ∉ files.map Prod.fst) :
    findFile (moveAll files d) p = findFile d p := by
  induction files generalizing d with
  | nil => rfl
  | cons e es ih =>
    obtain ⟨q, c⟩ := e
    have hq : p ≠ q := by
      intro hh
      exact h (by simp [hh])
    have hes : p ∉ es.map Prod.fst := fun hh => h (by simp [hh])
    rw [show moveAll ((q, c) :: es) d = moveAll es (moveFile q c d) from rfl,
      ih (moveFile q c d) hes, findFile_moveFile_ne q c d p hq]

theorem findFile_moveAll_mem (files : List (Path × String))
    (p : Path) (c : String) (hmem : (p, c) ∈ files)
    (hnd : (files.map Prod.fst).Nodup) :
    ∀ d : List (Path × String), findFile (moveAll files d) p = some c := by
  induction files with
  | nil => cases hmem
  | cons e es ih =>
    intro d
    obtain ⟨q, e0⟩ := e
    rw [List.map_cons] at hnd
    have hc := List.nodup_cons.mp hnd
    rcases List.mem_cons.mp hmem with heq | hmem2
    · injection heq with h1 h2
      subst h1
      subst h2
      rw [show moveAll ((p, c) :: es) d = moveAll es (moveFile p c d) from rfl,
        findFile_moveAll_not_mem es _ p hc.1, findFile_moveFile_self]
    · rw [show moveAll ((q, e0) :: es) d = moveAll es (moveFile q e0 d) from rfl]
      exact ih hmem2 hc.2 (moveFile q e0 d)

theorem moveAll_length (files : List (Path × String)) :
    ∀ d : List (Path × String), (files.map Prod.fst).Nodup →
      (∀ p ∈ files.map Prod.fst, p ∉ d.map Prod.fst) →
      (moveAll files d).length = files.length + d.length := by
  induction files with
  | nil =>
    intro d _ _
    simp [moveAll]
  | cons e es ih =>
    intro d hnd hdisj
    obtain ⟨q, c⟩ := e
    rw [List.map_cons] at hnd hdisj
    have hc := List.nodup_cons.mp hnd
    have hqd : q ∉ d.map Prod.fst := hdisj q (List.mem_cons_self _ _)
    have hfilter : d.filter (fun e => decide (e.1 ≠ q)) = d := by
      apply List.filter_eq_self.mpr
      intro x hx
      simp only [decide_eq_true_eq]
      intro hh
      exact hqd (by rw [← hh]; exact List.mem_map_of_mem Prod.fst hx)
    have hdisj2 : ∀ p ∈ es.map Prod.fst, p ∉ (moveFile q c d).map Prod.fst := by
      intro p hp
      have hpq : p ≠ q := fun hh => hc.1 (hh ▸ hp)
      have hpd : p ∉ d.map Prod.fst := hdisj p (List.mem_cons_of_mem _ hp)
      show p ∉ ((q, c) :: d.filter fun e => decide (e.1 ≠ q)).map Prod.fst
      rw [hfilter, List.map_cons]
      intro hmem
      rcases List.mem_cons.mp hmem with h1 | h2
      · exact hpq h1
      · exact hpd h2
    rw [show moveAll ((q, c) :: es) d = moveAll es (moveFile q c d) from rfl,
      ih (moveFile q c d) hc.2 hdisj2]
    show es.length + ((q, c) :: d.filter fun e => decide (e.1 ≠ q)).length
      = ((q, c) :: es).length + d.length
    rw [hfilter]
    simp only [List.length_cons]
    omega

/-! ### Claim C2: merge conflicts are overwritten, not reported -/

/-- C2 counterexample: with a destination file already at the colliding
relative path, the merge replaces the destination content with the
source content, removes the source, and prints the plain success
message — neither copy is left intact and no ConflictDetected condition
is reported. -/
theorem treeMerger_conflict_cex :
    treeMerge "Src" "Dst"
        { src := some [(["a"], "new")], dst := [(["a"], "old")] } =
      ({ src := none, dst := [(["a"], "new")] },
       "Moved resources from Src to Dst.") ∧
    findFile (treeMerge "Src" "Dst"
        { src := some [(["a"], "new")], dst := [(["a"], "old")] }).1.dst
      ["a"] ≠ some "old" := by
  refine ⟨by decide, by decide⟩

/-- C2 (amended): when a destination file pre-exists at a colliding
relative path, the merge silently moves the source file over it — the
destination afterwards holds the source content, the source subtree is
removed, and only the unconditional success message is printed. -/
theorem treeMerger_silent_overwrite (n1 n2 : String)
    (files dst : List (Path × String)) (p : Path) (c : String)
    (hmem : (p, c) ∈ files) (hnd : (files.map Prod.fst).Nodup) :
    findFile (treeMerge n1 n2 { src := some files, dst := dst }).1.dst p =
      some c ∧
    (treeMerge n1 n2 { src := some files, dst := dst }).1.src = none ∧
    (treeMerge n1 n2 { src := some files, dst := dst }).2 =
      "Moved resources from " ++ n1 ++ " to " ++ n2 ++ "." := by
  refine ⟨?_, rfl, rfl⟩
  show findFile (moveAll files dst) p = some c
  exact findFile_moveAll_mem files p c hmem hnd dst

/-- C2 witness: concrete colliding merge. -/
theorem treeMerger_silent_overwrite_witness :
    findFile (treeMerge "Src" "Dst"
        { src := some [(["b"], "newer")], dst := [(["b"], "older")] }).1.dst
      ["b"] = some "newer" :=
  (treeMerger_silent_overwrite "Src" "Dst" [(["b"], "newer")]
    [(["b"], "older")] ["b"] "newer" (by simp) (by simp)).1

/-! ### Claim C7: merge into an empty destination; absent source -/

/-- C7: merging a source of N files into an empty destination produces
a destination with the same N files at the equivalent relative paths
and removes the source; running the merge when the source directory is
absent is a no-op that reports that nothing was found. -/
theorem treeMerger_merge_spec (n1 n2 : String)
    (files : List (Path × String)) (hnd : (files.map Prod.fst).Nodup) :
    ((treeMerge n1 n2 { src := some files, dst := [] }).1.src = none ∧
     (treeMerge n1 n2 { src := some files, dst := [] }).1.dst.length =
       files.length ∧
     ∀ p c, (p, c) ∈ files →
       findFile (treeMerge n1 n2 { src := some files, dst := [] }).1.dst p =
         some c) ∧
    ∀ d : List (Path × String),
      treeMerge n1 n2 { src := none, dst := d } =
        ({ src := none, dst := d },
         "No nested resources found at " ++ n1 ++ ".") := by
  refine ⟨⟨rfl, ?_, ?_⟩, fun d => rfl⟩
  · show (moveAll files []).length = files.length
    have h := moveAll_length files [] hnd (by simp)
    simpa using h
  · intro p c hmem
    exact findFile_moveAll_mem files p c hmem hnd []

/-- C7 witness: concrete two-file merge into an empty destination. -/
theorem treeMerger_merge_spec_witness :
    (treeMerge "Src" "Dst"
      { src := some [(["Views", "index.leaf"], "A"), (["openapi.yml"], "B")],
        dst := [] }).1.dst.length = 2 ∧
    findFile (treeMerge "Src" "Dst"
      { src := some [(["Views", "index.leaf"], "A"), (["openapi.yml"], "B")],
        dst := [] }).1.dst ["openapi.yml"] = some "B" := by
  have h := treeMerger_merge_spec "Src" "Dst"
    [(["Views", "index.leaf"], "A"), (["openapi.yml"], "B")] (by decide)
  exact ⟨h.1.2.1, h.1.2.2 ["openapi.yml"] "B" (by simp)⟩

/-! ### Claim C8: the validator -/

theorem if_list_eq_nil (b : Bool) (xs : List String) (h : xs ≠ []) :
    ((if !b then xs else []) = []) ↔ b = true := by
  cases b <;> simp [h]

theorem validator_nil_iff (s : RedocState) :
    validate_redoc_setup s = [] ↔ allArtifactsPresent s := by
  obtain ⟨d1, d2, d3, f1, f2, f3, f4, r, cf⟩ := s
  cases r with
  | none => simp [validate_redoc_setup, allArtifactsPresent]
  | some rc =>
    cases cf with
    | none => simp [validate_redoc_setup, allArtifactsPresent]
    | some cc =>
      simp [validate_redoc_setup, allArtifactsPresent, if_list_eq_nil]
      intros
      tauto

/-- C8: the validator is a pure function of the inspected state (the
source only reads); its discrepancy list is empty exactly when every
expected directory, file and marker substring is present, and deleting
exactly one expected file from a fully valid tree makes the re-run
report exactly the one discrepancy naming that file. -/
theorem scaffoldValidator_check (s : RedocState) :
    (validate_redoc_setup s = [] ↔ allArtifactsPresent s) ∧
    (validate_redoc_setup s = [] →
      validate_redoc_setup { s with openapiFile := false } =
        ["Missing file: " ++ openapiFilePath] ∧
      validate_redoc_setup { s with redocLeafFile := false } =
        ["Missing file: " ++ redocLeafPath] ∧
      validate_redoc_setup { s with redocCssFile := false } =
        ["Missing file: " ++ redocCssPath] ∧
      validate_redoc_setup { s with redocJsFile := false } =
        ["Missing file: " ++ redocJsPath] ∧
      validate_redoc_setup { s with routesFile := none } =
        ["Missing file: " ++ routesPath] ∧
      validate_redoc_setup { s with configureFile := none } =
        ["Missing file: " ++ configurePath]) := by
  refine ⟨validator_nil_iff s, ?_⟩
  intro h
  obtain ⟨h1, h2, h3, h4, h5, h6, h7, ⟨rc, hrc, hrt1, hrt2⟩, cc, hcc, hcf⟩ :=
    (validator_nil_iff s).mp h
  refine ⟨?_, ?_, ?_, ?_, ?_, ?_⟩ <;>
    simp [validate_redoc_setup, h1, h2, h3, h4, h5, h6, h7, hrc, hcc,
      hrt1, hrt2, hcf]

/-- A fully valid state used to exercise the validator. -/
def goodRedocState : RedocState :=
  { openapiDir := true, viewsDir := true, redocAssetsDir := true,
    openapiFile := true, redocLeafFile := true, redocCssFile := true,
    redocJsFile := true,
    routesFile := some (routeOpenapiNeedle ++ " " ++ routeDocsNeedle),
    configureFile := some leafConfigNeedle }

/-- C8 witness: deleting openapi.yml from a concrete fully valid state
reports exactly the one discrepancy naming it. -/
theorem scaffoldValidator_check_witness :
    validate_redoc_setup { goodRedocState with openapiFile := false } =
      ["Missing file: " ++ openapiFilePath] :=
  ((scaffoldValidator_check goodRedocState).2 (by decide)).1

end CentralSeq
